import Mathlib

namespace Gaia

/-- Whitespace recognized by Python `str.split()` / `str.strip()` (ASCII range). -/
def pyIsSpace (c : Char) : Bool :=
  c = ' ' || c = '\t' || c = '\n' || c = '\r' || c = '\x0b' || c = '\x0c'

/-- Python `s.lstrip()`. -/
def pyLstrip (s : List Char) : List Char := s.dropWhile pyIsSpace

/-- Python `s.rstrip()`. -/
def pyRstrip (s : List Char) : List Char := s.rdropWhile pyIsSpace

/-- Python `s.strip()`. -/
def pyStrip (s : List Char) : List Char := pyRstrip (pyLstrip s)

/-- ASCII lowercasing of one character (model of Python `str.lower`). -/
def pyLowerChar (c : Char) : Char :=
  if 'A' ≤ c && c ≤ 'Z' then Char.ofNat (c.toNat + 32) else c

/-- Python `s.lower()` (ASCII model). -/
def pyLower (s : List Char) : List Char := s.map pyLowerChar

/-- First character test, Python `s.startswith(c)` for a single character. -/
def startsWithChar (s : List Char) (c : Char) : Bool :=
  match s.head? with
  | some d => d = c
  | none => false

/-- Last character test, Python `s.endswith(c)` for a single character. -/
def endsWithChar (s : List Char) (c : Char) : Bool :=
  match s.getLast? with
  | some d => d = c
  | none => false

/-- The `prefixes_to_remove` list of `_format_for_scorer` (src/agent.py), in
source order. -/
def fillerPhrases : List (List Char) :=
  ["the answer is ".toList, "it is ".toList, "that would be ".toList,
   "i believe ".toList, "i think ".toList, "this is ".toList]

/-- The loop over `prefixes_to_remove` in `_format_for_scorer`, which exits on
the first hit: the lowercased answer is tested against each filler phrase in
order; on the first hit the phrase's length is cut from the (original-case)
answer, which is then re-stripped, and the loop exits. -/
def stripFiller (answer : List Char) : List Char :=
  match fillerPhrases.find? (fun p => p.isPrefixOf (pyLower answer)) with
  | some p => pyStrip (answer.drop p.length)
  | none => answer

/-- The quote test of `_format_for_scorer`:
`(answer.startswith('"') and answer.endswith('"')) or (the same with "'")`. -/
def quoteWrapped (a : List Char) : Bool :=
  (startsWithChar a '"' && endsWithChar a '"') ||
  (startsWithChar a '\'' && endsWithChar a '\'')

/-- Python `answer = answer[1:-1]` guarded by `quoteWrapped` (src/agent.py). -/
def stripQuotesOnce (a : List Char) : List Char :=
  if quoteWrapped a then (a.drop 1).dropLast else a

/-- Membership in the strip set of `answer.rstrip('.')`. -/
def isDotChar (c : Char) : Bool := c = '.'

/-- Python `answer.rstrip('.')`. -/
def rstripDots (a : List Char) : List Char := a.rdropWhile isDotChar

/-- Helper for `pyWords`: the accumulator holds the current in-progress word,
reversed. -/
def wordsAux : List Char → List Char → List (List Char)
  | [], acc => if acc.isEmpty then [] else [acc.reverse]
  | c :: rest, acc =>
    if pyIsSpace c then
      if acc.isEmpty then wordsAux rest [] else acc.reverse :: wordsAux rest []
    else wordsAux rest (c :: acc)

/-- Python `s.split()`: maximal whitespace-free chunks, empties dropped. -/
def pyWords (s : List Char) : List (List Char) := wordsAux s []

/-- Python `' '.join(ws)`. -/
def joinSpace : List (List Char) → List Char
  | [] => []
  | [w] => w
  | w :: ws => w ++ ' ' :: joinSpace ws

/-- Direct translation of `GAIAAgent._format_for_scorer` (src/agent.py,
lines 284-318).  The `question` argument is accepted and ignored exactly as
in the source. -/
def format_for_scorer (answer : List Char) (question : List Char) : List Char :=
  let a1 := pyStrip answer
  let a2 := stripFiller a1
  let a3 := stripQuotesOnce a2
  let a4 := rstripDots a3
  let a5 := joinSpace (pyWords a4)
  pyStrip a5

/-- A word list is clean when every word is nonempty and whitespace-free;
this is what `pyWords` always produces. -/
def CleanWords (ws : List (List Char)) : Prop :=
  ∀ w ∈ ws, w ≠ [] ∧ ∀ c ∈ w, pyIsSpace c = false

/-- Modelled from the spec (C5 reference), step 2: scan the filler phrases in
listed order and strip exactly the first one that the lowercased answer
begins with, then re-trim; later phrases are not tried. -/
def refFillerLoop : List (List Char) → List Char → List Char
  | [], a => a
  | p :: ps, a =>
    if p.isPrefixOf (pyLower a) then pyStrip (a.drop p.length) else refFillerLoop ps a

/-- Modelled from the spec (C5 reference), step 3 as stated: the whole string
is wrapped in one matching PAIR of straight quotes, i.e. it has length at
least two and its first and last characters are the same quote character. -/
def pairQuoteWrapped (a : List Char) : Bool :=
  (2 ≤ a.length) &&
    ((startsWithChar a '"' && endsWithChar a '"') ||
     (startsWithChar a '\'' && endsWithChar a '\''))

/-- Modelled from the spec (C5 reference), step 5: collapse every whitespace
run to a single space (runs keep one `' '`; lone whitespace characters are
normalised to `' '`). -/
def collapseRuns : List Char → List Char
  | [] => []
  | [c] => if pyIsSpace c then [' '] else [c]
  | c :: d :: rest =>
    if pyIsSpace c && pyIsSpace d then collapseRuns (d :: rest)
    else (if pyIsSpace c then ' ' else c) :: collapseRuns (d :: rest)

/-- The reference normalization exactly as claim C5 states it: trim, strip the
first matching filler phrase and re-trim, strip one layer of a wrapping
quote PAIR, strip trailing periods, collapse internal whitespace runs,
final trim. -/
def reference_normalize_stated (a : List Char) : List Char :=
  let a1 := pyStrip a
  let a2 := refFillerLoop fillerPhrases a1
  let a3 := if pairQuoteWrapped a2 then (a2.drop 1).dropLast else a2
  let a4 := rstripDots a3
  let a5 := collapseRuns a4
  pyStrip a5

/-- The reference normalization with the quote step amended to the source's
first-and-last character test (no minimum length), which also erases a lone
quote character. -/
def reference_normalize_amended (a : List Char) : List Char :=
  let a1 := pyStrip a
  let a2 := refFillerLoop fillerPhrases a1
  let a3 := if quoteWrapped a2 then (a2.drop 1).dropLast else a2
  let a4 := rstripDots a3
  let a5 := collapseRuns a4
  pyStrip a5

/-- Whether the first character is whitespace. -/
def headIsSpace (s : List Char) : Bool :=
  match s.head? with
  | some c => pyIsSpace c
  | none => false

/-- Whether the last character is whitespace. -/
def lastIsSpace (s : List Char) : Bool :=
  match s.getLast? with
  | some c => pyIsSpace c
  | none => false

/-- Whether `collapseRuns` leaves a trailing space: the input ends in
whitespace and contains at least one word. -/
def trailSpaceFlag (s : List Char) : Bool := lastIsSpace s && !(pyWords s).isEmpty

/-- Python substring containment, `pat in s`. -/
def containsSub (pat : List Char) : List Char → Bool
  | [] => pat.isEmpty
  | c :: rest => pat.isPrefixOf (c :: rest) || containsSub pat rest

/-- Split at the first occurrence of `sep`: the text before and after it,
or `none` when `sep` does not occur. -/
def splitFirst (sep : List Char) : List Char → Option (List Char × List Char)
  | [] => if sep.isEmpty then some ([], []) else none
  | c :: rest =>
    if sep.isPrefixOf (c :: rest) then some ([], (c :: rest).drop sep.length)
    else
      match splitFirst sep rest with
      | some (pre, suf) => some (c :: pre, suf)
      | none => none

/-- Python `s.split(sep)` for a non-empty separator; the fuel bounds the
number of separator occurrences, which never exceeds the string length. -/
def pySplitAux (sep : List Char) : Nat → List Char → List (List Char)
  | 0, s => [s]
  | f + 1, s =>
    match splitFirst sep s with
    | none => [s]
    | some (pre, suf) => pre :: pySplitAux sep f suf

/-- Python `s.split(sep)` with the fuel instantiated to the string length. -/
def pySplit (sep s : List Char) : List (List Char) := pySplitAux sep s.length s

/-- Fuelled helper for `afterLastOccurrence`: repeatedly drop everything up to
and including the next occurrence of `sep`. -/
def afterLastAux (sep : List Char) : Nat → List Char → List Char
  | 0, s => s
  | f + 1, s =>
    match splitFirst sep s with
    | none => s
    | some (_, suf) => afterLastAux sep f suf

/-- The text after the last occurrence of `sep` (occurrences counted
left-to-right without overlap, as Python `split` does). -/
def afterLastOccurrence (sep s : List Char) : List Char := afterLastAux sep s.length s

/-- The text before the first occurrence of `sep` (the whole string when
`sep` does not occur). -/
def beforeFirstOccurrence (sep s : List Char) : List Char :=
  match splitFirst sep s with
  | some (pre, _) => pre
  | none => s

/-- Fuelled helper for `beforeLastOccurrence`. -/
def beforeLastAux (sep : List Char) : Nat → List Char → List Char
  | 0, _ => []
  | f + 1, s =>
    match splitFirst sep s with
    | none => []
    | some (pre, suf) =>
      if containsSub sep suf then pre ++ sep ++ beforeLastAux sep f suf else pre

/-- The text before the last occurrence of `sep` (occurrences counted
left-to-right without overlap). -/
def beforeLastOccurrence (sep s : List Char) : List Char := beforeLastAux sep s.length s

/-- The literal marker `FINAL ANSWER:` (src/agent.py, line 269). -/
def finalAnswerMarker : List Char := "FINAL ANSWER:".toList

/-- Translation of the answer-extraction block of
`_generate_answer_gaia_format` (src/agent.py, lines 269-276): when the
marker occurs, `parts = full_response.split("FINAL ANSWER:")` and the
result is `(parts[-1].strip(), parts[0].strip())`; otherwise the whole
stripped response with the fixed placeholder reasoning. -/
def extract_answer (full_response : List Char) : List Char × List Char :=
  if containsSub finalAnswerMarker full_response then
    let parts := pySplit finalAnswerMarker full_response
    (pyStrip (parts.getLastD []), pyStrip (parts.headD []))
  else (pyStrip full_response, "Direct answer provided".toList)

/-- The `search_keywords` list of `_needs_web_search` (src/agent.py,
lines 188-195), in source order; note the uppercase `CEO` entry, kept
verbatim. -/
def search_keywords : List (List Char) :=
  ["current".toList, "latest".toList, "recent".toList, "today".toList,
   "now".toList, "2024".toList, "2025".toList, "2026".toList,
   "who is".toList, "what is".toList, "when did".toList, "where is".toList,
   "how many".toList, "where were".toList,
   "population".toList, "price".toList, "cost".toList, "president".toList,
   "CEO".toList, "capital".toList,
   "located".toList, "founded".toList, "born".toList, "died".toList,
   "released".toList, "published".toList,
   "paper".toList, "study".toList, "research".toList, "article".toList,
   "journal".toList, "publication".toList,
   "described by".toList, "deposited".toList, "specimens".toList,
   "author".toList, "cited".toList]

/-- Translation of `GAIAAgent._needs_web_search` (src/agent.py,
lines 185-200): any keyword occurring as a substring of the lowercased
question. -/
def needs_web_search (question : List Char) : Bool :=
  search_keywords.any (fun k => containsSub k (pyLower question))

/-- The `file_keywords` list of `_needs_file` (src/agent.py, lines 204-208). -/
def file_keywords : List (List Char) :=
  ["file".toList, "image".toList, "document".toList, "picture".toList,
   "photo".toList, "shown".toList, "attached".toList, "provided".toList,
   "given".toList, "painting".toList, "chart".toList, "graph".toList,
   "table".toList, "spreadsheet".toList, "pdf".toList]

/-- Translation of `GAIAAgent._needs_file` (src/agent.py, lines 202-211). -/
def needs_file_kw (question : List Char) : Bool :=
  file_keywords.any (fun k => containsSub k (pyLower question))

/-- The tool decision of `answer_question` (src/agent.py, lines 88-89):
`needs_search = self._needs_web_search(q)` and
`needs_file = task_id and self._needs_file(q)`. -/
def toolDecision (question : List Char) (hasTaskId : Bool) : Bool × Bool :=
  (needs_web_search question, hasTaskId && needs_file_kw question)

/-- The `stop_words` set of `_generate_search_query` (src/agent.py, line 217). -/
def stop_words : List (List Char) :=
  ["the".toList, "a".toList, "an".toList, "in".toList, "on".toList,
   "at".toList, "to".toList, "for".toList, "of".toList, "with".toList,
   "by".toList, "from".toList, "just".toList, "give".toList, "me".toList,
   "without".toList]

/-- The strip set of `word.strip('.,?!')` (src/agent.py). -/
def punctChars : List Char := ['.', ',', '?', '!']

/-- Python `word.strip('.,?!')`: the punctuation characters are stripped from
BOTH ends of the token. -/
def stripPunctBoth (w : List Char) : List Char :=
  (w.dropWhile (fun c => punctChars.contains c)).rdropWhile
    (fun c => punctChars.contains c)

/-- Python single-character `str.isupper` (ASCII model). -/
def isUpperChar (c : Char) : Bool := 'A' ≤ c && c ≤ 'Z'

/-- Python `str.isdigit` (ASCII model): nonempty and all digits. -/
def isDigitsStr (w : List Char) : Bool :=
  !w.isEmpty && w.all (fun c => '0' ≤ c && c ≤ '9')

/-- The keep test of `_generate_search_query` (src/agent.py, line 225):
`word[0].isupper() or clean_word.isdigit() or clean_word not in stop_words`,
with `clean_word = word.strip('.,?!').lower()`. -/
def keepWord (word : List Char) : Bool :=
  let clean := pyLower (stripPunctBoth word)
  (match word.head? with | some c => isUpperChar c | none => false)
    || isDigitsStr clean || !(stop_words.contains clean)

/-- The accumulation loop of `_generate_search_query`: kept tokens contribute
their both-ends-stripped form `word.strip('.,?!')`. -/
def keyTermsLoop : List (List Char) → List (List Char)
  | [] => []
  | word :: rest =>
    if keepWord word then stripPunctBoth word :: keyTermsLoop rest
    else keyTermsLoop rest

/-- Direct translation of `_generate_search_query` (src/agent.py,
lines 213-231): split on whitespace, filter and strip, keep the first 12
terms, join with single spaces. -/
def generate_search_query (question : List Char) : List Char :=
  joinSpace ((keyTermsLoop (pyWords question)).take 12)

/-- Trailing-only punctuation strip, the operation claim C7's wording
describes. -/
def stripPunctTrail (w : List Char) : List Char :=
  w.rdropWhile (fun c => punctChars.contains c)

/-- The search-query builder exactly as claim C7 states it: each
whitespace-token is stripped of TRAILING punctuation; a token is kept iff
its first character is uppercase, or its punctuation-stripped lowercase
form is purely numeric, or that form is not a stop word; the first at most
12 surviving tokens are joined by single spaces. -/
def reference_query_stated (question : List Char) : List Char :=
  let toks := (pyWords question).map stripPunctTrail
  let kept := toks.filter (fun t =>
    (match t.head? with | some c => isUpperChar c | none => false)
      || isDigitsStr (pyLower t) || !(stop_words.contains (pyLower t)))
  joinSpace (kept.take 12)

/-- The reference query builder with the stripping amended to BOTH ends (as
`str.strip` does) and the uppercase test applied to the original unstripped
token's first character, as in the source. -/
def reference_query_amended (question : List Char) : List Char :=
  joinSpace ((((pyWords question).filter keepWord).map stripPunctBoth).take 12)

/-- A downloaded file as seen by `answer_question`: its byte count and the
text decoding `file_content.decode('utf-8', errors='ignore')`, which in
Python is total (undecodable bytes are dropped; it never raises). -/
structure DownloadedFile where
  byteLen : Nat
  decoded : List Char

/-- The error-sniffing test of `answer_question` (src/agent.py, line 119):
`'detail' in error_check or 'Failed to download' in error_check or
'Error' in error_check`. -/
def sniffsAsError (decoded : List Char) : Bool :=
  containsSub ("detail".toList) decoded
    || containsSub ("Failed to download".toList) decoded
    || containsSub ("Error".toList) decoded

/-- The fixed file-unavailable notice (src/agent.py, line 121); it does not
mention the file content. -/
def fileUnavailableNotice : List Char :=
  ("\n\nNote: The associated file could not be downloaded from the API. The agent will attempt to answer based on the question text alone. If the question requires viewing an image or reading a specific file, the answer may be incomplete.\n").toList

/-- Header of the Excel/CSV context block (src/agent.py, lines 132 and 142). -/
def fileContentHeader : List Char := ("\n\nFile Content:\n").toList

/-- Header of the text-interpretation context block (src/agent.py, line 148). -/
def textInterpHeader : List Char := ("\n\nFile Content (text interpretation):\n").toList

/-- The newline terminating each context block. -/
def newlineStr : List Char := ("\n").toList

/-- The binary fallback block (src/agent.py, line 151), carrying the byte
count. -/
def binaryBlock (n : Nat) : List Char :=
  ("\n\nFile: [Binary file, ").toList ++ (Nat.repr n).toList
    ++ (" bytes - could not parse]\n").toList

/-- The notice used when the file could not be retrieved (src/agent.py,
lines 155-158). -/
def notRetrievedNotice (task_id : Option (List Char)) (file_name : Option (List Char)) :
    List Char :=
  ("\n\nNote: The file associated with this question (task_id: ").toList
    ++ (match task_id with | some t => t | none => ("None").toList)
    ++ (match file_name with
        | some fn => (", file_name: ").toList ++ fn
        | none => [])
    ++ (") could not be retrieved from the API. The agent will attempt to answer based on the question text alone. If the question specifically requires analyzing an image, spreadsheet, or other file content, the answer may indicate that the file is unavailable.\n").toList

/-- Outcome of an external parse attempt (`pandas.read_excel` /
`pandas.read_csv`): either a rendered summary string or a raised exception. -/
inductive ParseOutcome where
  | parsed (summary : List Char) : ParseOutcome
  | raises (msg : List Char) : ParseOutcome

/-- The file-content processing of `answer_question` (src/agent.py,
lines 115-152) for bytes that arrived non-empty, mirroring the `try/except`
nesting of the source; `Except.error` would mean an exception escapes to
the caller.  The pandas parse attempts are external events supplied as
parameters.  `unexpected = some e` models an exception arising in the
processing region after the error-sniff test (where the real work happens);
the source's outer `except Exception` converts it into the binary-fallback
block, so no branch returns `Except.error`. -/
def processFileBlock (fc : DownloadedFile) (excel csv : ParseOutcome)
    (unexpected : Option (List Char)) : Except (List Char) (List Char) :=
  if sniffsAsError fc.decoded then Except.ok fileUnavailableNotice
  else
    match unexpected with
    | some _ => Except.ok (binaryBlock fc.byteLen)
    | none =>
      match excel with
      | ParseOutcome.parsed summary =>
        Except.ok (fileContentHeader ++ summary ++ newlineStr)
      | ParseOutcome.raises _ =>
        match csv with
        | ParseOutcome.parsed summary =>
          Except.ok (fileContentHeader ++ summary ++ newlineStr)
        | ParseOutcome.raises _ =>
          Except.ok (textInterpHeader ++ fc.decoded.take 2000 ++ newlineStr)

/-- The whole file-reading branch of `answer_question` (src/agent.py,
lines 110-163): the string appended to the prompt context.
`file_content = none` models a `None` (or non-bytes) return from
`read_file`; empty byte content takes the "could not be retrieved" path. -/
def fileContext (file_content : Option DownloadedFile) (excel csv : ParseOutcome)
    (unexpected : Option (List Char)) (task_id : Option (List Char))
    (file_name : Option (List Char)) : Except (List Char) (List Char) :=
  match file_content with
  | some fc =>
    if fc.byteLen > 0 then processFileBlock fc excel csv unexpected
    else Except.ok (notRetrievedNotice task_id file_name)
  | none => Except.ok (notRetrievedNotice task_id file_name)

/-- One HTTP attempt outcome for `read_file` (src/tools.py): `requests.get`
either times out, raises some other exception, or returns a response with a
status code, a body, a JSON content-type flag and the optionally parsed
`detail` field (`none` covers both a missing key and a `json()` failure). -/
inductive HttpOutcome where
  | timeout : HttpOutcome
  | raises (msg : List Char) : HttpOutcome
  | response (status : Nat) (content : List Nat) (isJson : Bool)
      (jsonDetail : Option (List Char)) : HttpOutcome

/-- The `max_retries = 3` constant (src/tools.py, line 90). -/
def max_retries : Nat := 3

/-- The loop over `range(max_retries)` in `read_file` (src/tools.py,
lines 91-147).  `outcomes n` is the outcome of the request issued on
attempt index `n`; the fuel counts the remaining loop iterations (initially
`max_retries`, so attempt + fuel = `max_retries` throughout).  Returns the
result, the number of HTTP requests issued, and the list of `time.sleep`
delays performed, in seconds (2 after a timeout, 1 after a bad status or
another exception, exactly as in the source). -/
def readFileLoop (outcomes : Nat → HttpOutcome) :
    Nat → Nat → Option (List Nat) × Nat × List Nat
  | _, 0 => (none, 0, [])
  | attempt, fuel + 1 =>
    match outcomes attempt with
    | HttpOutcome.timeout =>
      if attempt < max_retries - 1 then
        let r := readFileLoop outcomes (attempt + 1) fuel
        (r.1, r.2.1 + 1, 2 :: r.2.2)
      else (none, 1, [])
    | HttpOutcome.raises _ =>
      if attempt < max_retries - 1 then
        let r := readFileLoop outcomes (attempt + 1) fuel
        (r.1, r.2.1 + 1, 1 :: r.2.2)
      else (none, 1, [])
    | HttpOutcome.response status content isJson jsonDetail =>
      if status = 404 then (none, 1, [])
      else if status ≠ 200 then
        if attempt < max_retries - 1 then
          let r := readFileLoop outcomes (attempt + 1) fuel
          (r.1, r.2.1 + 1, 1 :: r.2.2)
        else (none, 1, [])
      else if content.length = 0 then (none, 1, [])
      else if isJson && jsonDetail.isSome then (none, 1, [])
      else (some content, 1, [])

/-- Translation of `FileReaderTool.read_file` (src/tools.py, lines 67-147):
cached content short-circuits with no HTTP request; otherwise the bounded
retry loop runs.  Returns (result, number of HTTP requests, sleep delays). -/
def read_file (cached : Option (List Nat)) (outcomes : Nat → HttpOutcome) :
    Option (List Nat) × Nat × List Nat :=
  match cached with
  | some content => (some content, 0, [])
  | none => readFileLoop outcomes 0 max_retries

/-- An attempt outcome the source retries on: a timeout, another request
exception, or a non-200 non-404 status. -/
def isRetryableFailure : HttpOutcome → Bool
  | HttpOutcome.timeout => true
  | HttpOutcome.raises _ => true
  | HttpOutcome.response status _ _ _ => !(status = 404) && !(status = 200)

/-- One question as fetched from the GAIA API, after the field probing of
`generate_submission_file` (src/app.py, lines 181-187): the task id (the
field probing may yield `None`) and the question text (`none` models a
missing or `None` field; the empty string is kept distinct because the
source's falsy tests treat every empty string as missing). -/
structure QData where
  task_id : Option (List Char)
  question_text : Option (List Char)

/-- One output record of the submission file (src/app.py, lines 202-206). -/
structure SubmissionRecord where
  task_id : Option (List Char)
  model_answer : List Char
  reasoning_trace : List Char

/-- The test `if not question_text: continue` (src/app.py, line 189): a
question is processed only when its text is present and non-empty. -/
def hasText (q : QData) : Bool :=
  match q.question_text with
  | none => false
  | some t => !t.isEmpty

/-- The per-question loop of `generate_submission_file` (src/app.py,
lines 179-220), abstracted over the agent call: `agent q = Except.error e`
models `agent.answer_question` raising exception `e`, which the loop's
exception arm turns into an `Error` record (still appended, "to maintain
order"); questions without text are skipped with no record. -/
def submissionLoop (agent : QData → Except (List Char) (List Char × List Char)) :
    List QData → List SubmissionRecord
  | [] => []
  | q :: rest =>
    if hasText q then
      (match agent q with
       | Except.ok (ans, reas) =>
         { task_id := q.task_id, model_answer := ans, reasoning_trace := reas }
       | Except.error e =>
         { task_id := q.task_id, model_answer := ("Error").toList,
           reasoning_trace := ("Error: ").toList ++ e })
        :: submissionLoop agent rest
    else submissionLoop agent rest

/-- The record the loop appends for one processed question. -/
def recordFor (agent : QData → Except (List Char) (List Char × List Char))
    (q : QData) : SubmissionRecord :=
  match agent q with
  | Except.ok (ans, reas) =>
    { task_id := q.task_id, model_answer := ans, reasoning_trace := reas }
  | Except.error e =>
    { task_id := q.task_id, model_answer := ("Error").toList,
      reasoning_trace := ("Error: ").toList ++ e }

/-- The exception handling around the model call in
`_generate_answer_gaia_format` (src/agent.py, lines 254-282): a successful
model response goes through answer extraction; ANY exception from the
call — a credits-exhausted (HTTP 402) failure included, for which the
source has no special case — is caught and converted to the sentinel answer
`Error generating answer` with the error text as reasoning. -/
def generate_answer_gaia_format (modelCall : Except (List Char) (List Char)) :
    List Char × List Char :=
  match modelCall with
  | Except.ok full_response => extract_answer full_response
  | Except.error e => (("Error generating answer").toList, e)

/-- Translation of `answer_question` (src/agent.py, lines 68-183) as seen by
the batch loop: the model call outcome is a parameter, and the
reasoning-trace string (whose assembly only involves external search/file
content) is abstracted as `trace q`.  The returned answer is the formatted
extracted answer.  The function is total: a model-call failure is already
converted to the sentinel inside `generate_answer_gaia_format`, so nothing
is raised on that path. -/
def answer_question_model (model : QData → Except (List Char) (List Char))
    (trace : QData → List Char) (q : QData) : List Char × List Char :=
  (format_for_scorer (generate_answer_gaia_format (model q)).1
    (match q.question_text with | some t => t | none => []),
   trace q)

/-- The two-question batch used to exercise a credits-exhausted model failure
on the first question. -/
def twoQuestions : List QData :=
  [{ task_id := some ("t1".toList), question_text := some ("first question".toList) },
   { task_id := some ("t2".toList), question_text := some ("second question".toList) }]

/-- A model oracle whose call for task `t1` raises a credits-exhausted error
and answers normally otherwise. -/
def creditsModel : QData → Except (List Char) (List Char) := fun q =>
  if q.task_id = some ("t1".toList) then
    Except.error ("402 Payment Required: you have exceeded your monthly included credits".toList)
  else Except.ok ("FINAL ANSWER: Paris".toList)

theorem wordsAux_clean (s : List Char) :
    ∀ acc : List Char, (∀ c ∈ acc, pyIsSpace c = false) →
      CleanWords (wordsAux s acc) := by
  induction s with
  | nil =>
    intro acc hacc
    by_cases h : acc.isEmpty <;> simp [wordsAux, h, CleanWords]
    constructor
    · intro he
      simp [he] at h
    · intro c hc
      exact hacc c hc
  | cons c rest ih =>
    intro acc hacc
    simp only [wordsAux]
    by_cases hsp : pyIsSpace c
    · simp only [hsp, if_true]
      by_cases hac : acc.isEmpty
      · simpa [hac] using ih [] (by simp)
      · simp only [hac, if_false]
        intro w hw
        rcases List.mem_cons.mp hw with h | h
        · subst h
          refine ⟨?_, ?_⟩
          · intro he
            rw [List.reverse_eq_nil_iff] at he
            simp [he] at hac
          · intro d hd
            exact hacc d (List.mem_reverse.mp hd)
        · exact ih [] (by simp) w h

    · simp only [hsp, if_false]
      refine ih (c :: acc) ?_
      intro d hd
      rcases List.mem_cons.mp hd with h | h
      · subst h; simpa using hsp
      · exact hacc d h

theorem pyWords_clean (s : List Char) : CleanWords (pyWords s) :=
  wordsAux_clean s [] (by simp)

theorem wordsAux_append_word (w : List Char) (hw : ∀ c ∈ w, pyIsSpace c = false) :
    ∀ (s acc : List Char), wordsAux (w ++ s) acc = wordsAux s (w.reverse ++ acc) := by
  induction w with
  | nil => intro s acc; simp
  | cons c w' ih =>
    intro s acc
    have hc : pyIsSpace c = false := hw c (by simp)
    simp only [List.cons_append, wordsAux, hc, if_false, Bool.false_eq_true,
      List.append_eq]
    rw [ih (fun d hd => hw d (by simp [hd])) s (c :: acc)]
    simp

theorem joinSpace_cons_cons (w x : List Char) (ws : List (List Char)) :
    joinSpace (w :: x :: ws) = w ++ ' ' :: joinSpace (x :: ws) := rfl

/-- Splitting on whitespace is a left inverse of joining clean words with
single spaces. -/
theorem pyWords_joinSpace (ws : List (List Char)) (h : CleanWords ws) :
    pyWords (joinSpace ws) = ws := by
  induction ws with
  | nil => simp [joinSpace, pyWords, wordsAux]
  | cons w ws' ih =>
    rcases h w (by simp) with ⟨hwne, hwns⟩
    cases ws' with
    | nil =>
      show pyWords (joinSpace [w]) = [w]
      have : joinSpace [w] = w ++ [] := by simp [joinSpace]
      rw [this]
      unfold pyWords
      rw [wordsAux_append_word w hwns [] []]
      simp [wordsAux, List.isEmpty_iff, hwne]
    | cons x ws'' =>
      rw [joinSpace_cons_cons]
      unfold pyWords
      rw [wordsAux_append_word w hwns (' ' :: joinSpace (x :: ws'')) []]
      have hsp : pyIsSpace ' ' = true := by decide
      simp only [wordsAux, hsp, if_true, List.append_nil]
      have hne : w.reverse.isEmpty = false := by
        simp [List.isEmpty_iff, hwne]
      simp only [hne, if_false, List.reverse_reverse, Bool.false_eq_true]
      have := ih (fun v hv => h v (by simp [hv]))
      unfold pyWords at this
      rw [this]

theorem joinSpace_head_not_space (ws : List (List Char)) (h : CleanWords ws) :
    ∀ c, (joinSpace ws).head? = some c → pyIsSpace c = false := by
  cases ws with
  | nil => intro c hc; simp [joinSpace] at hc
  | cons w ws' =>
    intro c hc
    rcases h w (by simp) with ⟨hwne, hwns⟩
    cases w with
    | nil => exact absurd rfl hwne
    | cons d w' =>
      have hd : (joinSpace ((d :: w') :: ws')).head? = some d := by
        cases ws' with
        | nil => simp [joinSpace]
        | cons x ws'' => rw [joinSpace_cons_cons]; simp
      rw [hd] at hc
      injection hc with hc
      exact hc ▸ hwns d (by simp)

theorem joinSpace_getLast_not_space (ws : List (List Char)) (h : CleanWords ws) :
    ∀ c, (joinSpace ws).getLast? = some c → pyIsSpace c = false := by
  induction ws with
  | nil => intro c hc; simp [joinSpace] at hc
  | cons w ws' ih =>
    intro c hc
    rcases h w (by simp) with ⟨hwne, hwns⟩
    cases ws' with
    | nil =>
      simp only [joinSpace] at hc
      rcases List.mem_getLast?_eq_getLast (by exact hc) with ⟨hne, heq⟩
      exact hwns c (heq ▸ List.getLast_mem hne)
    | cons x ws'' =>
      rw [joinSpace_cons_cons] at hc
      have hxne : joinSpace (x :: ws'') ≠ [] := by
        rcases h x (by simp) with ⟨hxne', -⟩
        cases x with
        | nil => exact absurd rfl hxne'
        | cons e x' =>
          cases ws'' with
          | nil => simp [joinSpace]
          | cons y ws''' => rw [joinSpace_cons_cons]; simp
      rw [List.getLast?_append_cons,
        show (' ' :: joinSpace (x :: ws'')) = [' '] ++ joinSpace (x :: ws'') from rfl,
        List.getLast?_append_of_ne_nil _ hxne] at hc
      exact ih (fun v hv => h v (by simp [hv])) c hc

theorem pyLstrip_eq_self_of_head (s : List Char)
    (h : ∀ c, s.head? = some c → pyIsSpace c = false) : pyLstrip s = s := by
  cases s with
  | nil => rfl
  | cons c rest =>
    have := h c (by simp)
    simp [pyLstrip, List.dropWhile_cons, this]

theorem pyRstrip_eq_self_of_getLast (s : List Char)
    (h : ∀ c, s.getLast? = some c → pyIsSpace c = false) : pyRstrip s = s := by
  unfold pyRstrip
  rw [List.rdropWhile_eq_self_iff]
  intro hne
  have := h (s.getLast hne) (List.getLast?_eq_getLast_of_ne_nil hne)
  simp [this]

/-- Joining clean words yields a string that stripping leaves unchanged. -/
theorem pyStrip_joinSpace (ws : List (List Char)) (h : CleanWords ws) :
    pyStrip (joinSpace ws) = joinSpace ws := by
  unfold pyStrip
  rw [pyLstrip_eq_self_of_head _ (joinSpace_head_not_space ws h),
    pyRstrip_eq_self_of_getLast _ (joinSpace_getLast_not_space ws h)]

/-- The output of `format_for_scorer` is a space-joined list of clean words. -/
theorem format_for_scorer_eq_joinSpace (x q : List Char) :
    format_for_scorer x q
      = joinSpace (pyWords (rstripDots (stripQuotesOnce (stripFiller (pyStrip x))))) := by
  simp only [format_for_scorer]
  exact pyStrip_joinSpace _ (pyWords_clean _)

/-- Claim C1, counterexample: `_format_for_scorer` is not idempotent.  On the
input `it is it is 5` one application strips a single filler phrase,
leaving `it is 5`, and a second application strips again, yielding `5`. -/
theorem C1_counterexample_not_idempotent :
    format_for_scorer (format_for_scorer ("it is it is 5".toList) []) []
      ≠ format_for_scorer ("it is it is 5".toList) [] := by decide

/-- Claim C1 (amended): `_format_for_scorer` is idempotent on every input
whose formatted output does not itself begin (lowercased) with a filler
phrase, is not first-and-last delimited by a matching quote character, and
does not end with a period.  (Outputs violating one of these three
conditions are exactly the inputs on which idempotence fails: a second
application strips a further phrase, quote layer, or period.) -/
theorem C1_format_idempotent_on_stable_outputs (x q : List Char)
    (hf : fillerPhrases.find?
      (fun p => p.isPrefixOf (pyLower (format_for_scorer x q))) = none)
    (hq : quoteWrapped (format_for_scorer x q) = false)
    (hd : endsWithChar (format_for_scorer x q) '.' = false) :
    format_for_scorer (format_for_scorer x q) q = format_for_scorer x q := by
  rw [format_for_scorer_eq_joinSpace x q] at hf hq hd ⊢
  generalize hg : pyWords (rstripDots (stripQuotesOnce (stripFiller (pyStrip x)))) = ws
    at hf hq hd ⊢
  have hclean : CleanWords ws := hg ▸ pyWords_clean _
  have h1 : pyStrip (joinSpace ws) = joinSpace ws := pyStrip_joinSpace ws hclean
  have h2 : stripFiller (joinSpace ws) = joinSpace ws := by
    unfold stripFiller
    rw [hf]
  have h3 : stripQuotesOnce (joinSpace ws) = joinSpace ws := by
    unfold stripQuotesOnce
    rw [hq]
    simp
  have h4 : rstripDots (joinSpace ws) = joinSpace ws := by
    unfold rstripDots
    rw [List.rdropWhile_eq_self_iff]
    intro hne
    unfold endsWithChar at hd
    rw [List.getLast?_eq_getLast_of_ne_nil hne] at hd
    simp only [isDotChar]
    simpa using hd
  simp only [format_for_scorer]
  rw [h1, h2, h3, h4, pyWords_joinSpace ws hclean, h1]

/-- Witness for the amended claim C1 at the concrete input `Paris`. -/
theorem C1_witness_idempotent :
    fillerPhrases.find?
        (fun p => p.isPrefixOf (pyLower (format_for_scorer ("Paris".toList) []))) = none
      ∧ quoteWrapped (format_for_scorer ("Paris".toList) []) = false
      ∧ endsWithChar (format_for_scorer ("Paris".toList) []) '.' = false
      ∧ format_for_scorer (format_for_scorer ("Paris".toList) []) []
          = format_for_scorer ("Paris".toList) [] :=
  ⟨by decide, by decide, by decide,
    C1_format_idempotent_on_stable_outputs ("Paris".toList) []
      (by decide) (by decide) (by decide)⟩

theorem refFillerLoop_eq_find (a : List Char) :
    ∀ ps : List (List Char),
      refFillerLoop ps a
        = match ps.find? (fun p => p.isPrefixOf (pyLower a)) with
          | some p => pyStrip (a.drop p.length)
          | none => a := by
  intro ps
  induction ps with
  | nil => simp [refFillerLoop]
  | cons p ps' ih =>
    by_cases hp : p.isPrefixOf (pyLower a)
    · simp [refFillerLoop, List.find?_cons, hp]
    · simp only [refFillerLoop, hp, if_false, Bool.false_eq_true, List.find?_cons]
      rw [ih]

theorem wordsAux_cons (c : Char) (s acc : List Char) :
    wordsAux (c :: s) acc
      = if pyIsSpace c then
          (if acc.isEmpty then wordsAux s [] else acc.reverse :: wordsAux s [])
        else wordsAux s (c :: acc) := rfl

theorem wordsAux_acc_nonempty (s : List Char) :
    ∀ acc : List Char, acc ≠ [] →
      wordsAux s acc
        = (acc.reverse ++ s.takeWhile (fun c => !pyIsSpace c))
            :: wordsAux (s.dropWhile (fun c => !pyIsSpace c)) [] := by
  induction s with
  | nil =>
    intro acc hacc
    simp [wordsAux, List.isEmpty_iff, hacc]
  | cons e s' ih =>
    intro acc hacc
    have hne : acc.isEmpty = false := by simp [List.isEmpty_iff, hacc]
    by_cases he : pyIsSpace e
    · have hta : (e :: s').takeWhile (fun c => !pyIsSpace c) = [] := by
        simp [List.takeWhile_cons, he]
      have hda : (e :: s').dropWhile (fun c => !pyIsSpace c) = e :: s' := by
        simp [List.dropWhile_cons, he]
      rw [hta, hda, wordsAux_cons, if_pos he, if_neg (by simp [hne]),
        wordsAux_cons, if_pos he, if_pos (by simp)]
      simp
    · have hta : (e :: s').takeWhile (fun c => !pyIsSpace c)
          = e :: s'.takeWhile (fun c => !pyIsSpace c) := by
        simp [List.takeWhile_cons, he]
      have hda : (e :: s').dropWhile (fun c => !pyIsSpace c)
          = s'.dropWhile (fun c => !pyIsSpace c) := by
        simp [List.dropWhile_cons, he]
      rw [hta, hda, wordsAux_cons, if_neg he]
      rw [ih (e :: acc) (by simp)]
      simp

theorem pyWords_eq_nil_all_space (s : List Char) :
    ∀ acc : List Char, wordsAux s acc = [] → acc = [] ∧ ∀ c ∈ s, pyIsSpace c = true := by
  induction s with
  | nil =>
    intro acc h
    by_cases hacc : acc.isEmpty
    · exact ⟨List.isEmpty_iff.mp hacc, by simp⟩
    · simp only [wordsAux, hacc, if_false, Bool.false_eq_true] at h
      exact absurd h (by simp)
  | cons c rest ih =>
    intro acc h
    rw [wordsAux_cons] at h
    by_cases hc : pyIsSpace c
    · rw [if_pos hc] at h
      by_cases hacc : acc.isEmpty
      · rw [if_pos hacc] at h
        rcases ih [] h with ⟨-, hall⟩
        exact ⟨List.isEmpty_iff.mp hacc, by
          intro d hd
          rcases List.mem_cons.mp hd with h' | h'
          · subst h'; exact hc
          · exact hall d h'⟩
      · rw [if_neg hacc] at h
        simp at h
    · rw [if_neg hc] at h
      rcases ih (c :: acc) h with ⟨habs, -⟩
      simp at habs

theorem joinSpace_cons_word (c : Char) (w : List Char) (R : List (List Char)) :
    joinSpace ((c :: w) :: R) = c :: joinSpace (w :: R) := by
  cases R with
  | nil => simp [joinSpace]
  | cons x R' => rw [joinSpace_cons_cons, joinSpace_cons_cons]; simp

theorem collapseRuns_struct (s : List Char) :
    collapseRuns s
      = (if headIsSpace s then [' '] else []) ++ joinSpace (pyWords s)
          ++ (if trailSpaceFlag s then [' '] else []) := by
  induction s with
  | nil => simp [collapseRuns, headIsSpace, trailSpaceFlag, lastIsSpace, pyWords,
      wordsAux, joinSpace]
  | cons c tail ih =>
    cases tail with
    | nil =>
      by_cases hc : pyIsSpace c <;>
        simp [collapseRuns, headIsSpace, trailSpaceFlag, lastIsSpace, pyWords,
          wordsAux, joinSpace, hc]
    | cons d rest =>
      have hlast : (c :: d :: rest).getLast? = (d :: rest).getLast? :=
        List.getLast?_cons_cons
      by_cases hc : pyIsSpace c
      · have hw : pyWords (c :: d :: rest) = pyWords (d :: rest) := by
          rw [pyWords, wordsAux_cons, if_pos hc, if_pos (by simp)]
          rfl
        have hheadc : headIsSpace (c :: d :: rest) = true := by
          simp [headIsSpace, hc]
        have htr : trailSpaceFlag (c :: d :: rest) = trailSpaceFlag (d :: rest) := by
          simp [trailSpaceFlag, lastIsSpace, hlast, hw]
        by_cases hd : pyIsSpace d
        · -- both whitespace: the leading character is dropped
          have hlead : headIsSpace (d :: rest) = true := by simp [headIsSpace, hd]
          have hcr : collapseRuns (c :: d :: rest) = collapseRuns (d :: rest) := by
            simp [collapseRuns, hc, hd]
          rw [hcr, ih, hlead, hheadc, htr, hw]
        · -- whitespace then word character: run ends, one space is kept
          have hlead : headIsSpace (d :: rest) = false := by simp [headIsSpace, hd]
          have hcr : collapseRuns (c :: d :: rest) = ' ' :: collapseRuns (d :: rest) := by
            simp [collapseRuns, hc, hd]
          rw [hcr, ih, hlead, hheadc, htr, hw]
          simp
      · -- word character: it joins the first word of the remainder
        have hlead : headIsSpace (c :: d :: rest) = false := by simp [headIsSpace, hc]
        have hcr : collapseRuns (c :: d :: rest) = c :: collapseRuns (d :: rest) := by
          simp [collapseRuns, hc]
        rw [hcr, ih, hlead]
        by_cases hd : pyIsSpace d
        · have hw : pyWords (c :: d :: rest) = [c] :: pyWords (d :: rest) := by
            rw [pyWords, wordsAux_cons, if_neg hc, wordsAux_cons, if_pos hd,
              if_neg (by simp)]
            rw [pyWords, wordsAux_cons, if_pos hd, if_pos (by simp)]
            rfl
          have hleadd : headIsSpace (d :: rest) = true := by simp [headIsSpace, hd]
          rw [hleadd, hw]
          by_cases hWnil : (pyWords (d :: rest)).isEmpty
          · have hWnil' : pyWords (d :: rest) = [] := List.isEmpty_iff.mp hWnil
            have hallsp : ∀ e ∈ d :: rest, pyIsSpace e = true :=
              (pyWords_eq_nil_all_space (d :: rest) [] hWnil').2
            have htr : trailSpaceFlag (d :: rest) = false := by
              simp [trailSpaceFlag, hWnil']
            have htr' : trailSpaceFlag (c :: d :: rest) = true := by
              have hmem : (d :: rest).getLast (by simp) ∈ d :: rest :=
                List.getLast_mem _
              have hli : lastIsSpace (c :: d :: rest) = true := by
                unfold lastIsSpace
                rw [hlast, List.getLast?_eq_getLast_of_ne_nil (by simp)]
                exact hallsp _ hmem
              simp [trailSpaceFlag, hli, hw, hWnil']
            rw [htr, htr', hWnil']
            simp [joinSpace]
          · have hWne : pyWords (d :: rest) ≠ [] := by
              simpa [List.isEmpty_iff] using hWnil
            have htr : trailSpaceFlag (c :: d :: rest) = trailSpaceFlag (d :: rest) := by
              have h1 : ((pyWords (c :: d :: rest)).isEmpty) = false := by
                simp [hw]
              simp only [trailSpaceFlag, lastIsSpace, hlast, h1]
              simp [hWne]
            rw [htr]
            obtain ⟨w₁, R, hWR⟩ : ∃ w₁ R, pyWords (d :: rest) = w₁ :: R := by
              cases hW : pyWords (d :: rest) with
              | nil => exact absurd hW hWne
              | cons w₁ R => exact ⟨w₁, R, rfl⟩
            rw [hWR, show joinSpace ([c] :: w₁ :: R) = c :: joinSpace ([] :: w₁ :: R) from
              joinSpace_cons_word c [] (w₁ :: R), joinSpace_cons_cons]
            simp
        · -- two word characters: c extends the first word
          have htw : pyWords (c :: d :: rest)
              = (c :: (d :: rest).takeWhile (fun e => !pyIsSpace e))
                  :: wordsAux ((d :: rest).dropWhile (fun e => !pyIsSpace e)) [] := by
            rw [pyWords, wordsAux_cons, if_neg hc]
            rw [wordsAux_acc_nonempty (d :: rest) [c] (by simp)]
            simp
          have hdw : pyWords (d :: rest)
              = ((d :: rest).takeWhile (fun e => !pyIsSpace e))
                  :: wordsAux ((d :: rest).dropWhile (fun e => !pyIsSpace e)) [] := by
            rw [pyWords, wordsAux_cons, if_neg hd]
            rw [wordsAux_acc_nonempty rest [d] (by simp)]
            simp [List.takeWhile_cons, List.dropWhile_cons, hd]
          have hleadd : headIsSpace (d :: rest) = false := by simp [headIsSpace, hd]
          rw [hleadd, htw]
          have htr : trailSpaceFlag (c :: d :: rest) = trailSpaceFlag (d :: rest) := by
            have h1 : ((pyWords (c :: d :: rest)).isEmpty) = false := by
              simp [htw]
            have h2 : ((pyWords (d :: rest)).isEmpty) = false := by
              simp [hdw]
            simp [trailSpaceFlag, lastIsSpace, hlast, h1, h2]
          rw [htr, joinSpace_cons_word, ← hdw]
          simp

theorem joinSpace_ne_nil (ws : List (List Char)) (h : CleanWords ws) (hne : ws ≠ []) :
    joinSpace ws ≠ [] := by
  cases ws with
  | nil => exact absurd rfl hne
  | cons w ws' =>
    rcases h w (by simp) with ⟨hwne, -⟩
    cases ws' with
    | nil => simpa [joinSpace] using hwne
    | cons x ws'' =>
      rw [joinSpace_cons_cons]
      simp

theorem pyLstrip_cons_space (X : List Char) : pyLstrip (' ' :: X) = pyLstrip X := by
  simp [pyLstrip, List.dropWhile_cons, pyIsSpace]

theorem pyLstrip_append_left_ne (J T : List Char) (hJ : J ≠ [])
    (hhead : ∀ c, J.head? = some c → pyIsSpace c = false) :
    pyLstrip (J ++ T) = J ++ T := by
  cases J with
  | nil => exact absurd rfl hJ
  | cons j J' =>
    have := hhead j (by simp)
    simp [pyLstrip, List.dropWhile_cons, this]

/-- Collapsing whitespace runs and trimming agrees with split-and-rejoin. -/
theorem pyStrip_collapseRuns (s : List Char) :
    pyStrip (collapseRuns s) = joinSpace (pyWords s) := by
  rw [collapseRuns_struct]
  by_cases hW : (pyWords s).isEmpty
  · have hW' : pyWords s = [] := List.isEmpty_iff.mp hW
    have ht : trailSpaceFlag s = false := by simp [trailSpaceFlag, hW']
    rw [hW', ht]
    by_cases hh : headIsSpace s
    · rw [hh]
      decide
    · rw [show headIsSpace s = false by simpa using hh]
      decide
  · have hW' : pyWords s ≠ [] := by simpa [List.isEmpty_iff] using hW
    have hclean := pyWords_clean s
    have hJne := joinSpace_ne_nil _ hclean hW'
    have hhead := joinSpace_head_not_space _ hclean
    have hlast := joinSpace_getLast_not_space _ hclean
    have hr : pyRstrip (joinSpace (pyWords s) ++ (if trailSpaceFlag s then [' '] else []))
        = joinSpace (pyWords s) := by
      by_cases ht : trailSpaceFlag s
      · rw [ht, if_pos rfl]
        unfold pyRstrip
        rw [List.rdropWhile_concat_pos _ _ ' ' (by decide)]
        exact pyRstrip_eq_self_of_getLast _ hlast
      · rw [show trailSpaceFlag s = false by simpa using ht]
        simp only [if_false, List.append_nil, Bool.false_eq_true]
        exact pyRstrip_eq_self_of_getLast _ hlast
    unfold pyStrip
    by_cases hh : headIsSpace s
    · rw [hh, if_pos rfl, List.append_assoc,
        show ([' '] ++ (joinSpace (pyWords s)
            ++ (if trailSpaceFlag s then [' '] else [])))
          = ' ' :: (joinSpace (pyWords s)
            ++ (if trailSpaceFlag s then [' '] else [])) from rfl,
        pyLstrip_cons_space,
        pyLstrip_append_left_ne _ _ hJne hhead, hr]
    · rw [show headIsSpace s = false by simpa using hh]
      simp only [if_false, List.nil_append, Bool.false_eq_true]
      rw [pyLstrip_append_left_ne _ _ hJne hhead, hr]

theorem refFillerLoop_eq_stripFiller (a : List Char) :
    refFillerLoop fillerPhrases a = stripFiller a := by
  rw [refFillerLoop_eq_find]
  rfl

/-- Claim C5, counterexample: on the one-character input consisting of a lone
straight double quote, the source formatter erases the character (its
first/last-character test is satisfied by the same single character), while
the reference normalization as stated — which strips only a wrapping PAIR
of quotes — leaves it unchanged. -/
theorem C5_counterexample_lone_quote :
    format_for_scorer ("\"".toList) [] ≠ reference_normalize_stated ("\"".toList) := by
  decide

/-- Claim C5 (amended): `_format_for_scorer` equals the fixed-order reference
normalization once the quote step is read as the source's first-and-last
character test (a lone quote character is erased); with that emendation the
equality holds for every string, and the two concrete examples of the claim
evaluate as stated. -/
theorem C5_formatter_matches_reference :
    (∀ a q, format_for_scorer a q = reference_normalize_amended a)
    ∧ format_for_scorer ("\"Paris.\"".toList) [] = "Paris".toList
    ∧ format_for_scorer ("I think 42.".toList) [] = "42".toList := by
  refine ⟨?_, by decide, by decide⟩
  intro a q
  simp only [format_for_scorer, reference_normalize_amended]
  rw [refFillerLoop_eq_stripFiller,
    show (if quoteWrapped (stripFiller (pyStrip a)) then
        ((stripFiller (pyStrip a)).drop 1).dropLast
      else stripFiller (pyStrip a)) = stripQuotesOnce (stripFiller (pyStrip a)) from rfl,
    pyStrip_collapseRuns]
  exact pyStrip_joinSpace _ (pyWords_clean _)

theorem splitFirst_eq_append (sep : List Char) :
    ∀ s pre suf, splitFirst sep s = some (pre, suf) → s = pre ++ sep ++ suf := by
  intro s
  induction s with
  | nil =>
    intro pre suf h
    simp only [splitFirst] at h
    by_cases he : sep.isEmpty
    · rw [if_pos he] at h
      injection h with h
      injection h with h1 h2
      rw [← h1, ← h2, List.isEmpty_iff.mp he]
      rfl
    · rw [if_neg he] at h
      exact absurd h (by simp)
  | cons c rest ih =>
    intro pre suf h
    simp only [splitFirst] at h
    by_cases hp : sep.isPrefixOf (c :: rest)
    · rw [if_pos hp] at h
      injection h with h
      injection h with h1 h2
      obtain ⟨t, ht⟩ := List.isPrefixOf_iff_prefix.mp hp
      rw [← h1, ← h2, ← ht, List.nil_append, List.drop_left]
    · rw [if_neg hp] at h
      cases heq : splitFirst sep rest with
      | none => rw [heq] at h; exact absurd h (by simp)
      | some ps =>
        obtain ⟨p2, s2⟩ := ps
        rw [heq] at h
        injection h with h
        injection h with h1 h2
        rw [← h1, ← h2]
        have := ih p2 s2 heq
        simp [this]

theorem splitFirst_isSome_eq_contains (sep : List Char) :
    ∀ s, (splitFirst sep s).isSome = containsSub sep s := by
  intro s
  induction s with
  | nil =>
    by_cases he : sep.isEmpty <;> simp [splitFirst, containsSub, he]
  | cons c rest ih =>
    simp only [splitFirst, containsSub]
    by_cases hp : sep.isPrefixOf (c :: rest)
    · simp [hp]
    · simp only [hp, Bool.false_or, if_false, Bool.false_eq_true]
      rw [← ih]
      cases heq : splitFirst sep rest with
      | none => simp [heq]
      | some ps =>
        obtain ⟨p2, s2⟩ := ps
        simp [heq]

theorem splitFirst_suf_lt (sep : List Char) (hsep : sep ≠ [])
    (s pre suf : List Char) (h : splitFirst sep s = some (pre, suf)) :
    suf.length < s.length := by
  have := splitFirst_eq_append sep s pre suf h
  rw [this]
  simp only [List.length_append]
  cases sep with
  | nil => exact absurd rfl hsep
  | cons a sep' =>
    simp only [List.length_cons]
    omega

theorem pySplitAux_ne_nil (sep : List Char) (f : Nat) (s : List Char) :
    pySplitAux sep f s ≠ [] := by
  cases f with
  | zero => simp [pySplitAux]
  | succ f' =>
    simp only [pySplitAux]
    cases splitFirst sep s with
    | none => simp
    | some ps => obtain ⟨pre, suf⟩ := ps; simp

theorem getLastD_congr_of_ne_nil {α : Type} (l : List α) (hl : l ≠ []) (a b : α) :
    l.getLastD a = l.getLastD b := by
  have h := List.getLast?_eq_getLast_of_ne_nil hl
  simp [List.getLastD_eq_getLast?, h]

theorem pySplitAux_headD (sep : List Char) (hsep : sep ≠ []) (f : Nat) (s : List Char)
    (hf : s.length ≤ f) :
    (pySplitAux sep f s).headD [] = beforeFirstOccurrence sep s := by
  cases f with
  | zero =>
    have hs : s = [] := by
      cases s with
      | nil => rfl
      | cons c rest => simp at hf
    subst hs
    have : splitFirst sep [] = none := by
      simp [splitFirst, List.isEmpty_iff, hsep]
    simp [pySplitAux, beforeFirstOccurrence, this]
  | succ f' =>
    simp only [pySplitAux, beforeFirstOccurrence]
    cases heq : splitFirst sep s with
    | none => simp
    | some ps => obtain ⟨pre, suf⟩ := ps; simp

theorem pySplitAux_getLastD (sep : List Char) (hsep : sep ≠ []) :
    ∀ (f : Nat) (s : List Char), s.length ≤ f →
      (pySplitAux sep f s).getLastD [] = afterLastAux sep f s := by
  intro f
  induction f with
  | zero =>
    intro s hf
    have hs : s = [] := by
      cases s with
      | nil => rfl
      | cons c rest => simp at hf
    subst hs
    simp [pySplitAux, afterLastAux]
  | succ f' ih =>
    intro s hf
    simp only [pySplitAux, afterLastAux]
    cases heq : splitFirst sep s with
    | none => simp
    | some ps =>
      obtain ⟨pre, suf⟩ := ps
      have hlt : suf.length < s.length := splitFirst_suf_lt sep hsep s pre suf heq
      have hle : suf.length ≤ f' := by omega
      have hih := ih suf hle
      obtain ⟨x, L', hL⟩ : ∃ x L', pySplitAux sep f' suf = x :: L' := by
        cases hL : pySplitAux sep f' suf with
        | nil => exact absurd hL (pySplitAux_ne_nil sep f' suf)
        | cons x L' => exact ⟨x, L', rfl⟩
      dsimp only
      rw [hL] at hih
      rw [hL, ← hih]
      simp [List.getLastD_eq_getLast?, List.getLast?_cons_cons]

/-- Claim C4, counterexample: on a response containing the marker twice, the
source takes the reasoning from before the FIRST occurrence (`parts[0]`),
not before the last occurrence as the claim states (with or without
trimming). -/
theorem C4_counterexample_reasoning_from_first :
    (extract_answer ("A FINAL ANSWER: B FINAL ANSWER: C".toList)).2 = "A".toList
    ∧ pyStrip (beforeLastOccurrence finalAnswerMarker
        ("A FINAL ANSWER: B FINAL ANSWER: C".toList)) = "A FINAL ANSWER: B".toList
    ∧ (extract_answer ("A FINAL ANSWER: B FINAL ANSWER: C".toList)).2
        ≠ pyStrip (beforeLastOccurrence finalAnswerMarker
            ("A FINAL ANSWER: B FINAL ANSWER: C".toList))
    ∧ (extract_answer ("A FINAL ANSWER: B FINAL ANSWER: C".toList)).2
        ≠ beforeLastOccurrence finalAnswerMarker
            ("A FINAL ANSWER: B FINAL ANSWER: C".toList) := by
  refine ⟨by decide, by decide, by decide, by decide⟩

/-- Claim C4 (amended): with the marker present, the raw answer is the
trimmed text after the LAST occurrence of `FINAL ANSWER:` and the reasoning
is the trimmed text before the FIRST occurrence (not the last); with the
marker absent, the whole trimmed response is the raw answer and the
reasoning is the fixed placeholder; the concrete example evaluates as the
claim states. -/
theorem C4_extraction :
    (∀ full, containsSub finalAnswerMarker full = true →
      extract_answer full
        = (pyStrip (afterLastOccurrence finalAnswerMarker full),
           pyStrip (beforeFirstOccurrence finalAnswerMarker full)))
    ∧ (∀ full, containsSub finalAnswerMarker full = false →
      extract_answer full = (pyStrip full, "Direct answer provided".toList))
    ∧ extract_answer ("some reasoning text FINAL ANSWER: 7".toList)
        = ("7".toList, "some reasoning text".toList) := by
  have hsep : finalAnswerMarker ≠ [] := by decide
  refine ⟨?_, ?_, by decide⟩
  · intro full hc
    unfold extract_answer
    simp only [hc, if_true]
    unfold pySplit afterLastOccurrence
    rw [pySplitAux_headD finalAnswerMarker hsep full.length full (le_refl _),
      pySplitAux_getLastD finalAnswerMarker hsep full.length full (le_refl _)]
  · intro full hc
    unfold extract_answer
    simp [hc]

/-- Witness for the amended claim C4 at a concrete marker-bearing input. -/
theorem C4_extraction_witness :
    containsSub finalAnswerMarker ("x FINAL ANSWER: y".toList) = true
    ∧ extract_answer ("x FINAL ANSWER: y".toList)
        = (pyStrip (afterLastOccurrence finalAnswerMarker ("x FINAL ANSWER: y".toList)),
           pyStrip (beforeFirstOccurrence finalAnswerMarker ("x FINAL ANSWER: y".toList))) :=
  ⟨by decide, C4_extraction.1 ("x FINAL ANSWER: y".toList) (by decide)⟩

/-- Claim C6: for every question containing (after lowercasing) no search
keyword and no file keyword, the tool decision returns both flags false;
in particular for the empty question. -/
theorem C6_no_keywords_no_tools :
    (∀ (question : List Char) (hasTaskId : Bool),
      (∀ k ∈ search_keywords, containsSub k (pyLower question) = false) →
      (∀ k ∈ file_keywords, containsSub k (pyLower question) = false) →
      toolDecision question hasTaskId = (false, false))
    ∧ (∀ hasTaskId, toolDecision [] hasTaskId = (false, false)) := by
  constructor
  · intro question hasTaskId hs hf
    have h1 : needs_web_search question = false := by
      unfold needs_web_search
      rw [List.any_eq_false]
      intro k hk
      simp [hs k hk]
    have h2 : needs_file_kw question = false := by
      unfold needs_file_kw
      rw [List.any_eq_false]
      intro k hk
      simp [hf k hk]
    simp [toolDecision, h1, h2]
  · intro hasTaskId
    cases hasTaskId <;> decide

/-- Witness for claim C6 at the concrete keyword-free question `hello`. -/
theorem C6_witness_no_keywords :
    (∀ k ∈ search_keywords, containsSub k (pyLower ("hello".toList)) = false)
    ∧ (∀ k ∈ file_keywords, containsSub k (pyLower ("hello".toList)) = false)
    ∧ toolDecision ("hello".toList) true = (false, false) :=
  ⟨by decide, by decide,
    C6_no_keywords_no_tools.1 ("hello".toList) true (by decide) (by decide)⟩

theorem keyTermsLoop_eq_filter_map (ws : List (List Char)) :
    keyTermsLoop ws = (ws.filter keepWord).map stripPunctBoth := by
  induction ws with
  | nil => rfl
  | cons w rest ih =>
    by_cases hw : keepWord w
    · simp [keyTermsLoop, List.filter_cons, hw, ih]
    · simp [keyTermsLoop, List.filter_cons, hw, ih]

/-- Claim C7, counterexample: the source strips punctuation from BOTH ends of
each token (`word.strip('.,?!')`), not only trailing punctuation.  On the
question `,the` the source strips the leading comma, recognises the stop
word `the`, and returns the empty query, while the claim's trailing-only
reading keeps the token `,the`. -/
theorem C7_counterexample_leading_punctuation :
    generate_search_query (",the".toList) ≠ reference_query_stated (",the".toList)
    ∧ generate_search_query (",the".toList) = []
    ∧ reference_query_stated (",the".toList) = ",the".toList :=
  ⟨by decide, by decide, by decide⟩

/-- Claim C7 (amended): the query builder splits on whitespace, strips the
punctuation characters from BOTH ends of each token, keeps a token iff the
original token's first character is uppercase or the stripped lowercase
form is purely numeric or that form is not a stop word, and joins the first
at most 12 surviving stripped tokens with single spaces; zero survivors
yield the empty string. -/
theorem C7_search_query_characterisation :
    (∀ question, generate_search_query question = reference_query_amended question)
    ∧ generate_search_query [] = [] := by
  constructor
  · intro question
    unfold generate_search_query reference_query_amended
    rw [keyTermsLoop_eq_filter_map]
  · decide

theorem containsSub_append_self (p a b : List Char) :
    containsSub p (a ++ p ++ b) = true := by
  induction a with
  | nil =>
    simp only [List.nil_append]
    cases hpb : p ++ b with
    | nil =>
      rcases List.append_eq_nil.mp hpb with ⟨hp, -⟩
      subst hp
      rfl
    | cons c rest =>
      have hpfx : p.isPrefixOf (p ++ b) = true :=
        List.isPrefixOf_iff_prefix.mpr (List.prefix_append p b)
      rw [hpb] at hpfx
      simp [containsSub, hpfx]
  | cons x a' ih =>
    simp only [List.cons_append, List.append_assoc] at ih ⊢
    simp [containsSub, ih]

/-- Claim C8: the context assembly never lets an exception escape — for every
file outcome and every parse outcome the result is `Except.ok` of some
context string; a spreadsheet parse is used first, then the delimited-text
parse, then the plain-text snippet; an unanticipated processing failure
downgrades to the Binary block, which contains the byte count. -/
theorem C8_file_context_never_raises :
    (∀ file_content excel csv unexpected task_id file_name,
      ∃ s, fileContext file_content excel csv unexpected task_id file_name
        = Except.ok s)
    ∧ (∀ (fc : DownloadedFile) (es : List Char) (csv : ParseOutcome),
        sniffsAsError fc.decoded = false →
        processFileBlock fc (ParseOutcome.parsed es) csv none
          = Except.ok (fileContentHeader ++ es ++ newlineStr))
    ∧ (∀ (fc : DownloadedFile) (em cs : List Char),
        sniffsAsError fc.decoded = false →
        processFileBlock fc (ParseOutcome.raises em) (ParseOutcome.parsed cs) none
          = Except.ok (fileContentHeader ++ cs ++ newlineStr))
    ∧ (∀ (fc : DownloadedFile) (em em' : List Char),
        sniffsAsError fc.decoded = false →
        processFileBlock fc (ParseOutcome.raises em) (ParseOutcome.raises em') none
          = Except.ok (textInterpHeader ++ fc.decoded.take 2000 ++ newlineStr))
    ∧ (∀ (fc : DownloadedFile) (excel csv : ParseOutcome) (e : List Char),
        sniffsAsError fc.decoded = false →
        processFileBlock fc excel csv (some e) = Except.ok (binaryBlock fc.byteLen)
          ∧ containsSub ((Nat.repr fc.byteLen).toList) (binaryBlock fc.byteLen)
            = true) := by
  refine ⟨?_, ?_, ?_, ?_, ?_⟩
  · intro file_content excel csv unexpected task_id file_name
    cases file_content with
    | none => exact ⟨_, rfl⟩
    | some fc =>
      by_cases hlen : fc.byteLen > 0
      · simp only [fileContext, hlen, if_true]
        unfold processFileBlock
        by_cases hsniff : sniffsAsError fc.decoded
        · rw [if_pos hsniff]
          exact ⟨_, rfl⟩
        · rw [if_neg hsniff]
          cases unexpected with
          | some e => exact ⟨_, rfl⟩
          | none =>
            cases excel with
            | parsed es => exact ⟨_, rfl⟩
            | raises em =>
              cases csv with
              | parsed cs => exact ⟨_, rfl⟩
              | raises em' => exact ⟨_, rfl⟩
      · simp only [fileContext, hlen, if_false]
        exact ⟨_, rfl⟩
  · intro fc es csv hsniff
    simp [processFileBlock, hsniff]
  · intro fc em cs hsniff
    simp [processFileBlock, hsniff]
  · intro fc em em' hsniff
    simp [processFileBlock, hsniff]
  · intro fc excel csv e hsniff
    refine ⟨by simp [processFileBlock, hsniff], ?_⟩
    unfold binaryBlock
    exact containsSub_append_self ((Nat.repr fc.byteLen).toList) _ _

/-- Witness for claim C8 at concrete inputs: a 4-byte file whose decoding
carries no error marker, with both parses failing and an unanticipated
error, lands in the Binary block naming 4 bytes. -/
theorem C8_witness_binary_fallback :
    sniffsAsError ("abcd".toList) = false
    ∧ processFileBlock ⟨4, "abcd".toList⟩ (ParseOutcome.raises ("x".toList))
        (ParseOutcome.raises ("y".toList)) (some ("boom".toList))
        = Except.ok (binaryBlock 4)
    ∧ containsSub ((Nat.repr 4).toList) (binaryBlock 4) = true :=
  ⟨by decide,
    (C8_file_context_never_raises.2.2.2.2 ⟨4, "abcd".toList⟩
      (ParseOutcome.raises ("x".toList)) (ParseOutcome.raises ("y".toList))
      ("boom".toList) (by decide)).1,
    (C8_file_context_never_raises.2.2.2.2 ⟨4, "abcd".toList⟩
      (ParseOutcome.raises ("x".toList)) (ParseOutcome.raises ("y".toList))
      ("boom".toList) (by decide)).2⟩

/-- Claim C10: whenever the decoded bytes contain `detail`,
`Failed to download`, or `Error` anywhere, the appended context is exactly
the fixed file-unavailable notice — a constant that does not depend on the
file — so the file's actual content is never included; in particular a
legitimate CSV file merely containing the word `Error` is treated as
unavailable. -/
theorem C10_error_sniff_discards_content :
    (∀ (fc : DownloadedFile) (excel csv : ParseOutcome)
        (unexpected : Option (List Char)) (task_id file_name : Option (List Char)),
      fc.byteLen > 0 →
      (containsSub ("detail".toList) fc.decoded = true
        ∨ containsSub ("Failed to download".toList) fc.decoded = true
        ∨ containsSub ("Error".toList) fc.decoded = true) →
      fileContext (some fc) excel csv unexpected task_id file_name
        = Except.ok fileUnavailableNotice)
    ∧ fileContext (some ⟨16, "Error,Count\n1,2\n".toList⟩)
        (ParseOutcome.parsed ("a fine table".toList))
        (ParseOutcome.parsed ("a fine table".toList)) none
        (some ("t1".toList)) none
        = Except.ok fileUnavailableNotice := by
  refine ⟨?_, rfl⟩
  intro fc excel csv unexpected task_id file_name hlen hsniff
  have hs : sniffsAsError fc.decoded = true := by
    unfold sniffsAsError
    rcases hsniff with h | h | h <;> rw [h] <;> simp
  simp [fileContext, hlen, processFileBlock, hs]

/-- Witness for claim C10 at a concrete content containing `Error`. -/
theorem C10_witness_error_text :
    containsSub ("Error".toList) ("Error,Count\n1,2\n".toList) = true
    ∧ fileContext (some ⟨16, "Error,Count\n1,2\n".toList⟩)
        (ParseOutcome.parsed ("t".toList)) (ParseOutcome.parsed ("t".toList))
        none (some ("t1".toList)) none
        = Except.ok fileUnavailableNotice :=
  ⟨by decide,
    C10_error_sniff_discards_content.1 ⟨16, "Error,Count\n1,2\n".toList⟩
      (ParseOutcome.parsed ("t".toList)) (ParseOutcome.parsed ("t".toList))
      none (some ("t1".toList)) none (by decide)
      (Or.inr (Or.inr (by decide)))⟩

theorem readFileLoop_requests_le (outcomes : Nat → HttpOutcome) :
    ∀ (fuel attempt : Nat), (readFileLoop outcomes attempt fuel).2.1 ≤ fuel := by
  intro fuel
  induction fuel with
  | zero => intro attempt; simp [readFileLoop]
  | succ f ih =>
    intro attempt
    simp only [readFileLoop]
    cases outcomes attempt with
    | timeout =>
      by_cases h : attempt < max_retries - 1
      · simp only [if_pos h]
        have := ih (attempt + 1)
        try dsimp only
        omega
      · simp only [if_neg h]
        try dsimp only
        omega
    | raises m =>
      by_cases h : attempt < max_retries - 1
      · simp only [if_pos h]
        have := ih (attempt + 1)
        try dsimp only
        omega
      · simp only [if_neg h]
        try dsimp only
        omega
    | response status content isJson jsonDetail =>
      have hrec := ih (attempt + 1)
      by_cases h404 : status = 404
      · simp only [if_pos h404]
        try dsimp only
        omega
      · simp only [if_neg h404]
        by_cases h200 : status ≠ 200
        · simp only [if_pos h200]
          by_cases h : attempt < max_retries - 1
          · simp only [if_pos h]
            try dsimp only
            omega
          · simp only [if_neg h]
            try dsimp only
            omega
        · simp only [if_neg h200]
          by_cases hlen : content.length = 0
          · simp only [if_pos hlen]
            try dsimp only
            omega
          · simp only [if_neg hlen]
            by_cases hj : (isJson && jsonDetail.isSome) = true
            · simp only [if_pos hj]
              try dsimp only
              omega
            · simp only [if_neg hj]
              try dsimp only
              omega

theorem readFileLoop_delays (outcomes : Nat → HttpOutcome) :
    ∀ (fuel attempt : Nat), ∀ d ∈ (readFileLoop outcomes attempt fuel).2.2,
      d = 1 ∨ d = 2 := by
  intro fuel
  induction fuel with
  | zero => intro attempt; simp [readFileLoop]
  | succ f ih =>
    intro attempt
    simp only [readFileLoop]
    cases outcomes attempt with
    | timeout =>
      by_cases h : attempt < max_retries - 1
      · simp only [if_pos h]
        try dsimp only
        intro d hd
        rcases List.mem_cons.mp hd with h' | h'
        · right; exact h'
        · exact ih (attempt + 1) d h'
      · simp only [if_neg h]
        simp
    | raises m =>
      by_cases h : attempt < max_retries - 1
      · simp only [if_pos h]
        try dsimp only
        intro d hd
        rcases List.mem_cons.mp hd with h' | h'
        · left; exact h'
        · exact ih (attempt + 1) d h'
      · simp only [if_neg h]
        simp
    | response status content isJson jsonDetail =>
      by_cases h404 : status = 404
      · simp only [if_pos h404]
        simp
      · simp only [if_neg h404]
        by_cases h200 : status ≠ 200
        · simp only [if_pos h200]
          by_cases h : attempt < max_retries - 1
          · simp only [if_pos h]
            try dsimp only
            intro d hd
            rcases List.mem_cons.mp hd with h' | h'
            · left; exact h'
            · exact ih (attempt + 1) d h'
          · simp only [if_neg h]
            simp
        · simp only [if_neg h200]
          by_cases hlen : content.length = 0
          · simp only [if_pos hlen]
            simp
          · simp only [if_neg hlen]
            by_cases hj : (isJson && jsonDetail.isSome) = true
            · simp only [if_pos hj]
              simp
            · simp only [if_neg hj]
              simp

theorem readFileLoop_all_fail (outcomes : Nat → HttpOutcome)
    (hfail : ∀ i, i < max_retries → isRetryableFailure (outcomes i) = true) :
    ∀ (fuel attempt : Nat), attempt + fuel = max_retries →
      (readFileLoop outcomes attempt fuel).1 = none
        ∧ (readFileLoop outcomes attempt fuel).2.1 = fuel := by
  intro fuel
  induction fuel with
  | zero => intro attempt h; simp [readFileLoop]
  | succ f ih =>
    intro attempt hsum
    have hatt : attempt < max_retries := by omega
    have hfa := hfail attempt hatt
    simp only [readFileLoop]
    cases ho : outcomes attempt with
    | timeout =>
      by_cases h : attempt < max_retries - 1
      · simp only [if_pos h]
        have := ih (attempt + 1) (by omega)
        try dsimp only
        exact ⟨this.1, by rw [this.2]⟩
      · have hf0 : f = 0 := by
          simp only [max_retries] at hsum h
          omega
        subst hf0
        simp [if_neg h]
    | raises m =>
      by_cases h : attempt < max_retries - 1
      · simp only [if_pos h]
        have := ih (attempt + 1) (by omega)
        try dsimp only
        exact ⟨this.1, by rw [this.2]⟩
      · have hf0 : f = 0 := by
          simp only [max_retries] at hsum h
          omega
        subst hf0
        simp [if_neg h]
    | response status content isJson jsonDetail =>
      rw [ho] at hfa
      simp only [isRetryableFailure, Bool.and_eq_true, Bool.not_eq_true',
        decide_eq_false_iff_not] at hfa
      obtain ⟨h404, h200⟩ := hfa
      simp only [if_neg h404, if_pos h200]
      by_cases h : attempt < max_retries - 1
      · simp only [if_pos h]
        have := ih (attempt + 1) (by omega)
        try dsimp only
        exact ⟨this.1, by rw [this.2]⟩
      · have hf0 : f = 0 := by
          simp only [max_retries] at hsum h
          omega
        subst hf0
        simp [if_neg h]

/-- Claim C9: `read_file` issues at most 3 HTTP requests in every run (0 on a
cache hit); every inter-attempt delay is the fixed constant 1 or 2 seconds,
with no growth across attempts; and when all three attempts fail with a
retryable failure (timeout, request exception, or non-200 non-404 status)
the function returns `None` — it does not raise — after exactly 3 requests. -/
theorem C9_read_file_bounded_retries :
    (∀ cached outcomes, (read_file cached outcomes).2.1 ≤ 3)
    ∧ (∀ cached outcomes, ∀ d ∈ (read_file cached outcomes).2.2, d = 1 ∨ d = 2)
    ∧ (∀ outcomes, (∀ i, i < max_retries → isRetryableFailure (outcomes i) = true) →
        (read_file none outcomes).1 = none ∧ (read_file none outcomes).2.1 = 3) := by
  refine ⟨?_, ?_, ?_⟩
  · intro cached outcomes
    cases cached with
    | some c => simp [read_file]
    | none =>
      have := readFileLoop_requests_le outcomes max_retries 0
      simpa [read_file, max_retries] using this
  · intro cached outcomes d hd
    cases cached with
    | some c => simp [read_file] at hd
    | none =>
      exact readFileLoop_delays outcomes max_retries 0 d (by simpa [read_file] using hd)
  · intro outcomes hfail
    have := readFileLoop_all_fail outcomes hfail max_retries 0 (by simp)
    exact ⟨this.1, this.2⟩

/-- Witness for claim C9: with no cache and every attempt timing out,
`read_file` returns `None` after exactly 3 requests, sleeping 2 seconds
between attempts. -/
theorem C9_witness_all_timeouts :
    ((read_file none (fun _ => HttpOutcome.timeout)).1 = none
      ∧ (read_file none (fun _ => HttpOutcome.timeout)).2.1 = 3)
    ∧ read_file none (fun _ => HttpOutcome.timeout) = (none, 3, [2, 2]) :=
  ⟨C9_read_file_bounded_retries.2.2 (fun _ => HttpOutcome.timeout)
      (fun i _ => rfl),
    by decide⟩

theorem submissionLoop_eq_filter_map
    (agent : QData → Except (List Char) (List Char × List Char)) :
    ∀ qs : List QData,
      submissionLoop agent qs = (qs.filter hasText).map (recordFor agent) := by
  intro qs
  induction qs with
  | nil => rfl
  | cons q rest ih =>
    by_cases hq : hasText q
    · simp only [submissionLoop, hq, if_true, List.filter_cons_of_pos hq,
        List.map_cons, ih]
      cases hagent : agent q with
      | ok pair => obtain ⟨ans, reas⟩ := pair; simp [recordFor, hagent]
      | error e => simp [recordFor, hagent]
    · simp only [submissionLoop, hq, if_false, Bool.false_eq_true,
        List.filter_cons_of_neg (by simpa using hq), ih]

theorem recordFor_task_id
    (agent : QData → Except (List Char) (List Char × List Char)) (q : QData) :
    (recordFor agent q).task_id = q.task_id := by
  unfold recordFor
  cases agent q with
  | ok pair => obtain ⟨ans, reas⟩ := pair; rfl
  | error e => rfl

/-- Claim C3, counterexample: a question whose text is missing is skipped by
`generate_submission_file` — it produces NO output record, so a batch of
one textless question yields zero records, not one. -/
theorem C3_counterexample_textless_question_skipped :
    submissionLoop (fun _ => Except.ok (("42").toList, ("trace").toList))
      [{ task_id := some ("t1".toList), question_text := none }] = []
    ∧ (submissionLoop (fun _ => Except.ok (("42").toList, ("trace").toList))
        [{ task_id := some ("t1".toList), question_text := none }]).length ≠ 1 :=
  ⟨rfl, by decide⟩

/-- Claim C3 (amended): every question with present, non-empty text produces
exactly one output record, in the positional order of the input list, and
an agent failure yields a record with the sentinel answer `Error` rather
than a missing record; questions with missing or empty text are skipped and
produce no record.  Formally the loop equals filtering to text-bearing
questions and mapping each to its record. -/
theorem C3_records_align_with_text_questions
    (agent : QData → Except (List Char) (List Char × List Char)) (qs : List QData) :
    submissionLoop agent qs = (qs.filter hasText).map (recordFor agent) :=
  submissionLoop_eq_filter_map agent qs

/-- Claim C2, counterexample: a credits-exhausted model failure does NOT halt
the batch.  With two questions whose first model call fails with a
credits-exhausted error, the loop still yields two records (not fewer), the
first carrying the sentinel answer and the second the normal answer. -/
theorem C2_counterexample_batch_not_halted :
    (submissionLoop
        (fun q => Except.ok (answer_question_model creditsModel
          (fun _ => ("trace").toList) q)) twoQuestions).length = 2
    ∧ ¬ (submissionLoop
        (fun q => Except.ok (answer_question_model creditsModel
          (fun _ => ("trace").toList) q)) twoQuestions).length < 2
    ∧ (submissionLoop
        (fun q => Except.ok (answer_question_model creditsModel
          (fun _ => ("trace").toList) q)) twoQuestions).map
          SubmissionRecord.model_answer
        = [("Error generating answer").toList, ("Paris").toList] :=
  ⟨by decide, by decide, by decide⟩

/-- Claim C2 (amended): a credits-exhausted model-call failure — like any
other model-call failure — is caught inside the answer generator and turned
into the sentinel answer `Error generating answer`; the batch loop does not
halt: every question with text still yields exactly one record, in input
order, so N questions yield N records. -/
theorem C2_model_failures_keep_batch_running
    (model : QData → Except (List Char) (List Char))
    (trace : QData → List Char) (qs : List QData)
    (hall : ∀ q ∈ qs, hasText q = true) :
    (submissionLoop
        (fun q => Except.ok (answer_question_model model trace q)) qs).length
      = qs.length
    ∧ (submissionLoop
        (fun q => Except.ok (answer_question_model model trace q)) qs).map
        SubmissionRecord.task_id = qs.map QData.task_id
    ∧ ∀ q ∈ qs, ∀ e, model q = Except.error e →
        (recordFor (fun q' => Except.ok (answer_question_model model trace q')) q).model_answer
          = ("Error generating answer").toList := by
  have hfilter : qs.filter hasText = qs := List.filter_eq_self.mpr hall
  have hloop := submissionLoop_eq_filter_map
    (fun q => Except.ok (answer_question_model model trace q)) qs
  rw [hfilter] at hloop
  refine ⟨?_, ?_, ?_⟩
  · rw [hloop, List.length_map]
  · rw [hloop, List.map_map]
    apply List.map_congr_left
    intro q hq
    exact recordFor_task_id _ q
  · intro q hq e he
    unfold recordFor
    simp only
    unfold answer_question_model
    rw [he]
    unfold generate_answer_gaia_format
    simp only
    have : format_for_scorer (("Error generating answer").toList)
        (match q.question_text with | some t => t | none => [])
        = ("Error generating answer").toList := by
      have hirrel : ∀ x y : List Char,
          format_for_scorer (("Error generating answer").toList) x
            = format_for_scorer (("Error generating answer").toList) y :=
        fun x y => rfl
      rw [hirrel _ []]
      decide
    rw [this]

/-- Witness for the amended claim C2 at the concrete two-question batch with
a credits-exhausted failure on the first question. -/
theorem C2_witness_two_question_batch :
    (∀ q ∈ twoQuestions, hasText q = true)
    ∧ (submissionLoop
        (fun q => Except.ok (answer_question_model creditsModel
          (fun _ => ("trace").toList) q)) twoQuestions).length
      = twoQuestions.length :=
  ⟨by decide,
    (C2_model_failures_keep_batch_running creditsModel
      (fun _ => ("trace").toList) twoQuestions (by decide)).1⟩

end Gaia
